import Mathlib

/-!
Verification development for the `react-virtual-infinite-list` repository.

The repository contains two engines:

* a pagination fetch controller (`useInfiniteList`): grows an item sequence
  from page- or cursor-based backend responses, with continuation state
  (`hasMore`), loading flags, an error slot, and the operations `loadMore`,
  `loadUntilCount`, `reset`, `refresh`, plus an automatic initial fetch;
* a viewport windowing engine (`useVirtualList`): a prefix-sum position
  table over item heights, binary searches for the visible range,
  overscan-padded windows, and `scrollToIndex` addressing.

The definitions below are a shallow embedding of that code.  The fetch
controller is embedded twice, at two levels of atomicity:

* `fetchData`/`loadMore`/`loadUntilAux` treat one fetch as an atomic step
  (the code is single-threaded and a fetch is the only suspension point);
  responses come from an explicit environment `FetchEnv`, and functions
  that can throw in JavaScript are `Except`-valued;
* `stepM` is an event-level machine that splits a fetch into its
  synchronous start (everything before `await fetcher(...)`) and its
  completion (everything after), so that interleavings of operations with
  an outstanding fetch can be stated; ghost counters track issued requests
  and outstanding fetches.

Heights, scroll offsets and positions are modelled as `Int`: the windowing
code uses only addition and order comparisons on these values, for which
integers are exact; the single value-level division in the code
(`scrollToIndex` with `center` alignment) is modelled exactly over `ℚ`.
-/

/-- Snapshot returned by the load operations: `{ itemsCount, hasMore }`. -/
structure LoadResult where
  itemsCount : Nat
  hasMore : Bool
deriving DecidableEq, Repr

/-- Ghost log entry: one invocation of the `onSuccess` / `onError` callback. -/
inductive CbEvent (ε : Type) where
  | successCb (count : Nat)
  | errorCb (e : ε)
deriving DecidableEq, Repr

/-- Request parameters: `{ page, limit }` in page mode, `{ cursor, limit }`
in cursor mode. -/
inductive FetchParams where
  | page (p : Int) (limit : Nat)
  | cursor (c : Option String) (limit : Nat)
deriving DecidableEq, Repr

/-- The controller's configuration: pagination mode, resolved `limit`
(`pagination.limit ?? 20`), initial page/cursor, the fetcher and the
extraction functions.  JavaScript functions that can throw are modelled as
`Except ε`-valued; optional options are `Option`-valued. -/
structure FetchEnv (TData TItem ε : Type) where
  isPage : Bool
  limit : Nat
  initialPage : Int
  initialCursor : Option String
  fetcher : FetchParams → Except ε TData
  getData : TData → Except ε (List TItem)
  getTotal : Option (TData → Except ε Int)
  getNextCursor : Option (TData → Except ε (Option String))
  hasMoreFn : Option (TData → List TItem → Except ε Bool)

/-- The controller's mutable state: React state and the mirroring refs are
merged (the code always updates them together), `events` is a ghost log of
callback invocations. -/
structure Ctrl (TItem ε : Type) where
  items : List TItem
  isLoading : Bool
  isLoadingMore : Bool
  error : Option ε
  hasMore : Bool
  page : Int
  cursor : Option String
  total : Option Int
  isFetching : Bool
  isInitialized : Bool
  events : List (CbEvent ε)
deriving DecidableEq, Repr

/-- State at construction time (and the state `reset` rewinds to). -/
def initCtrl (env : FetchEnv TData TItem ε) : Ctrl TItem ε where
  items := []
  isLoading := false
  isLoadingMore := false
  error := none
  hasMore := true
  page := if env.isPage then env.initialPage else 1
  cursor := if env.isPage then none else env.initialCursor
  total := none
  isFetching := false
  isInitialized := false
  events := []

/-- Model of `reset()`: clears items, error, flags, rewinds page/cursor/total and the
in-flight and initialized guards.  The ghost callback log is kept. -/
def resetCtrl (env : FetchEnv TData TItem ε) (s : Ctrl TItem ε) : Ctrl TItem ε :=
  { initCtrl env with events := s.events }

/-- Request parameters built from the current refs. -/
def mkParams (env : FetchEnv TData TItem ε) (s : Ctrl TItem ε) : FetchParams :=
  if env.isPage then .page s.page env.limit else .cursor s.cursor env.limit

/-- Model of `checkHasMore(response, allItems)`: determines whether more data exists,
also returning the new value of `totalRef` (set only by the page+getTotal
rule).  Mirrors the source's cascade:
custom `hasMore` function; else cursor mode with `getNextCursor`; else page
mode with `getTotal`; else the full-page heuristic on `getData`. -/
def checkHasMore (env : FetchEnv TData TItem ε) (total0 : Option Int)
    (r : TData) (allItems : List TItem) : Except ε (Bool × Option Int) :=
  match env.hasMoreFn with
  | some f => (f r allItems).map (fun b => (b, total0))
  | none =>
    match env.isPage, env.getNextCursor, env.getTotal with
    | false, some g, _ => (g r).map (fun c => (c.isSome, total0))
    | true, _, some t => (t r).map (fun tot => (decide ((allItems.length : Int) < tot), some tot))
    | _, _, _ => (env.getData r).map (fun ni => (decide (env.limit ≤ ni.length), total0))

/-- The `catch`/`finally` tail of `fetchData`: store the error, invoke the
error callback, clear the loading flags and the in-flight guard, and return
the snapshot built from the current refs. -/
def failWith (s : Ctrl TItem ε) (e : ε) : Ctrl TItem ε × LoadResult :=
  ({ s with error := some e
            events := s.events ++ [.errorCb e]
            isLoading := false
            isLoadingMore := false
            isFetching := false },
   ⟨s.items.length, s.hasMore⟩)

/-- The flag updates `fetchData` applies before its `try` block: set the
in-flight guard, set the matching loading flag, clear the error slot. -/
def startCtrl (isLoadMore : Bool) (s : Ctrl TItem ε) : Ctrl TItem ε :=
  if isLoadMore then { s with isFetching := true, isLoadingMore := true, error := none }
  else { s with isFetching := true, isLoading := true, error := none }

/-- The `try`/`catch`/`finally` block of `fetchData`: request, item
accumulation, page/cursor advance, `checkHasMore`, callbacks, in source
order; any `.error` from the fetcher or an extraction function drops into
`failWith` with the state as mutated so far. -/
def fetchBody (env : FetchEnv TData TItem ε) (isLoadMore : Bool)
    (s1 : Ctrl TItem ε) : Ctrl TItem ε × LoadResult :=
  match env.fetcher (mkParams env s1) with
    | .error e => failWith s1 e
    | .ok response =>
      match env.getData response with
      | .error e => failWith s1 e
      | .ok newItems =>
        let allItems := if isLoadMore then s1.items ++ newItems else newItems
        let s2 := { s1 with items := allItems }
        let adv : Ctrl TItem ε ⊕ (Ctrl TItem ε × ε) :=
          if env.isPage then .inl { s2 with page := s2.page + 1 }
          else
            match env.getNextCursor with
            | some g =>
              match g response with
              | .ok c => .inl { s2 with cursor := c }
              | .error e => .inr (s2, e)
            | none => .inl s2
        match adv with
        | .inr (sE, e) => failWith sE e
        | .inl s3 =>
          match checkHasMore env s3.total response allItems with
          | .error e => failWith s3 e
          | .ok (more, t') =>
            ({ s3 with hasMore := more
                       total := t'
                       events := s3.events ++ [.successCb allItems.length]
                       isLoading := false
                       isLoadingMore := false
                       isFetching := false },
             ⟨allItems.length, more⟩)

/-- Model of `fetchData(isLoadMore)`: the core fetch.  Guards (`isFetchingRef`, and
`hasMoreRef` for continuation fetches), then the flag updates and the
`try` block.  The whole operation is one atomic step here (the code is
single-threaded; the only suspension point is the `await`). -/
def fetchData (env : FetchEnv TData TItem ε) (isLoadMore : Bool)
    (s : Ctrl TItem ε) : Ctrl TItem ε × LoadResult :=
  if s.isFetching then (s, ⟨s.items.length, s.hasMore⟩)
  else if isLoadMore && !s.hasMore then (s, ⟨s.items.length, false⟩)
  else fetchBody env isLoadMore (startCtrl isLoadMore s)

/-- Model of `loadMore()`: no-op returning the current snapshot when `hasMore` is
false or a loading flag is set; otherwise one continuation fetch. -/
def loadMore (env : FetchEnv TData TItem ε) (s : Ctrl TItem ε) :
    Ctrl TItem ε × LoadResult :=
  if !s.hasMore || s.isLoadingMore || s.isLoading then (s, ⟨s.items.length, s.hasMore⟩)
  else fetchData env true s

/-- The `loadUntilCount` loop.  `fuel` is the number of attempts still
allowed (`maxAttempts - attempts`); the loop guard in the source is
`items.length < targetCount && hasMoreRef && attempts < maxAttempts`, the
body fetches once, breaks if the fetch reported no more data (before
incrementing `attempts`), and otherwise increments `attempts`.  Returns the
final state together with the number of fetches performed. -/
def loadUntilAux (env : FetchEnv TData TItem ε) (target : Nat) :
    Nat → Ctrl TItem ε → Ctrl TItem ε × Nat
  | 0, s => (s, 0)
  | fuel + 1, s =>
    if s.items.length < target && s.hasMore then
      let r := fetchData env true s
      if r.2.hasMore then
        let rest := loadUntilAux env target fuel r.1
        (rest.1, rest.2 + 1)
      else (r.1, 1)
    else (s, 0)

/-- Model of `loadUntilCount(targetCount, maxAttempts)`: run the loop, then return
the snapshot built from the final refs.  The fetch count is kept as ghost
output. -/
def loadUntilCount (env : FetchEnv TData TItem ε) (target maxAttempts : Nat)
    (s : Ctrl TItem ε) : (Ctrl TItem ε × Nat) × LoadResult :=
  let r := loadUntilAux env target maxAttempts s
  (r, ⟨r.1.items.length, r.1.hasMore⟩)

/-- Model of `refresh()`: `reset()` followed by an initial fetch (the microtask delay
between the two in the source is a no-op in this sequential model). -/
def refresh (env : FetchEnv TData TItem ε) (s : Ctrl TItem ε) :
    Ctrl TItem ε × LoadResult :=
  fetchData env false (resetCtrl env s)

/-! ## Event-level machine

Splits a fetch into its synchronous start and its completion, so that
operations arriving while a fetch is outstanding can be interleaved.
`inFlight` counts outstanding (started, not yet completed) fetches,
`reqs` counts issued requests, `autoFetches` counts requests issued by the
initial-fetch effect; all three are ghost counters. -/

structure MState where
  itemsCount : Nat
  hasMore : Bool
  isLoading : Bool
  isLoadingMore : Bool
  hasError : Bool
  isFetching : Bool
  isInitialized : Bool
  inFlight : Nat
  reqs : Nat
  autoFetches : Nat
deriving DecidableEq, Repr

/-- State at mount time. -/
def initM : MState where
  itemsCount := 0
  hasMore := true
  isLoading := false
  isLoadingMore := false
  hasError := false
  isFetching := false
  isInitialized := false
  inFlight := 0
  reqs := 0
  autoFetches := 0

/-- The synchronous prefix of `fetchData` up to `await fetcher(...)`:
guards, flag updates, error clearing.  Returns the new state and whether a
request was actually issued. -/
def startFetch (isLoadMore : Bool) (s : MState) : MState × Bool :=
  if s.isFetching then (s, false)
  else if isLoadMore && !s.hasMore then (s, false)
  else
    ({ s with isFetching := true
              isLoading := if isLoadMore then s.isLoading else true
              isLoadingMore := if isLoadMore then true else s.isLoadingMore
              hasError := false
              inFlight := s.inFlight + 1
              reqs := s.reqs + 1 }, true)

/-- Events: a `loadMore` call up to its suspension, a direct `fetchData`
call (`refresh`, `loadUntilCount` iterations, …) up to its suspension, the
completion of one outstanding fetch (with the response abstracted into the
event: resulting item count, continuation flag, success bit), a `reset()`
call, and one run of the initial-fetch effect. -/
inductive MEvent where
  | loadMoreEv
  | fetchStart (isLoadMore : Bool)
  | fetchComplete (newCount : Nat) (more : Bool) (ok : Bool)
  | resetEv
  | effectRun (enabled : Bool)
deriving DecidableEq, Repr

/-- One event step. -/
def stepM (s : MState) : MEvent → MState
  | .loadMoreEv =>
    if !s.hasMore || s.isLoadingMore || s.isLoading then s
    else (startFetch true s).1
  | .fetchStart lm => (startFetch lm s).1
  | .fetchComplete newCount more ok =>
    if s.inFlight = 0 then s
    else
      { s with itemsCount := if ok then newCount else s.itemsCount
               hasMore := if ok then more else s.hasMore
               hasError := if ok then s.hasError else true
               isLoading := false
               isLoadingMore := false
               isFetching := false
               inFlight := s.inFlight - 1 }
  | .resetEv =>
    { s with itemsCount := 0
             hasMore := true
             isLoading := false
             isLoadingMore := false
             hasError := false
             isFetching := false
             isInitialized := false }
  | .effectRun enabled =>
    if enabled && !s.isInitialized then
      let s1 := { s with isInitialized := true }
      let r := startFetch false s1
      { r.1 with autoFetches := r.1.autoFetches + (if r.2 then 1 else 0) }
    else s

/-- Run a trace of events. -/
def runM (s : MState) : List MEvent → MState
  | [] => s
  | e :: t => runM (stepM s e) t

/-- A trace is reset-safe from `s` when every `reset()` in it happens while
no fetch is outstanding. -/
def safeTrace (s : MState) : List MEvent → Bool
  | [] => true
  | e :: t => (decide (e = .resetEv → s.inFlight = 0)) && safeTrace (stepM s e) t

/-! ## Viewport windowing engine -/

/-- One entry of the Position Index (source field names `start`, `end`,
`size`; `end` is a Lean keyword, rendered `stop`). -/
structure PosEntry where
  start : Int
  stop : Int
  size : Int
deriving DecidableEq, Repr

/-- A Position Index entry tagged with its source index. -/
structure VirtualItem where
  index : Int
  start : Int
  stop : Int
  size : Int
deriving DecidableEq, Repr

/-- The single left-to-right accumulation building the Position Index:
`buildLoop h i cnt off` processes items `i, i+1, …, i+cnt-1` starting at
offset `off`, returning the entries and the final offset (`totalHeight`). -/
def buildLoop (h : Nat → Int) : Nat → Nat → Int → List PosEntry × Int
  | i, cnt + 1, off =>
    let rest := buildLoop h (i + 1) cnt (off + h i)
    (⟨off, off + h i, h i⟩ :: rest.1, rest.2)
  | _, 0, off => ([], off)

/-- Model of `itemPositions`: the Position Index for `n` items with height function
`h`. -/
def itemPositions (h : Nat → Int) (n : Nat) : List PosEntry :=
  (buildLoop h 0 n 0).1

/-- Model of `totalHeight`: the accumulated offset after the build loop. -/
def totalHeight (h : Nat → Int) (n : Nat) : Int :=
  (buildLoop h 0 n 0).2

/-- Lookup `itemPositions[i]` for an `Int` index, as in `itemPositions[mid]`:
`undefined` (`none`) when out of range. -/
def getPos (tbl : List PosEntry) (i : Int) : Option PosEntry :=
  if 0 ≤ i then tbl.get? i.toNat else none

/-- Prefix sum of heights: `heightSum h i = h 0 + ⋯ + h (i-1)`.  Used to
state the Position Index characterization. -/
def heightSum (h : Nat → Int) (i : Nat) : Int :=
  (Finset.range i).sum h

/-- The `findStartIndex` binary-search loop.  `fuel` bounds the number of
iterations; it is in surplus at every call site (the interval shrinks at
every iteration), so the fuel-out value is never reached.  Branches are in
source order: descend right when `pos.end < scrollTop`, left when
`pos.start > scrollTop`, else return `mid`; on loop exit return
`Math.max(0, low)`. -/
def findStartLoop (tbl : List PosEntry) (x : Int) : Nat → Int → Int → Int
  | fuel + 1, low, high =>
    if low ≤ high then
      match getPos tbl ((low + high) / 2) with
      | none => max 0 low
      | some pos =>
        if pos.stop < x then findStartLoop tbl x fuel ((low + high) / 2 + 1) high
        else if x < pos.start then findStartLoop tbl x fuel low ((low + high) / 2 - 1)
        else (low + high) / 2
    else max 0 low
  | 0, low, _ => max 0 low

/-- The `findEndIndex` binary-search loop over `targetEnd`: descend left
when `pos.start > targetEnd`, right when `pos.end < targetEnd`, else return
`mid`; on loop exit return `Math.min(length - 1, low)`. -/
def findEndLoop (tbl : List PosEntry) (x : Int) : Nat → Int → Int → Int
  | fuel + 1, low, high =>
    if low ≤ high then
      match getPos tbl ((low + high) / 2) with
      | none => min ((tbl.length : Int) - 1) low
      | some pos =>
        if x < pos.start then findEndLoop tbl x fuel low ((low + high) / 2 - 1)
        else if pos.stop < x then findEndLoop tbl x fuel ((low + high) / 2 + 1) high
        else (low + high) / 2
    else min ((tbl.length : Int) - 1) low
  | 0, low, _ => min ((tbl.length : Int) - 1) low

/-- Model of `findStartIndex(scrollTop)`. -/
def findStartIndex (tbl : List PosEntry) (x : Int) : Int :=
  findStartLoop tbl x (tbl.length + 1) 0 ((tbl.length : Int) - 1)

/-- Model of `findEndIndex(scrollTop, containerHeight)`; the loop searches for
`targetEnd = scrollTop + containerHeight`. -/
def findEndIndex (tbl : List PosEntry) (scrollTop extent : Int) : Int :=
  findEndLoop tbl (scrollTop + extent) (tbl.length + 1) 0 ((tbl.length : Int) - 1)

/-- The `for (i = startIndex; i <= endIndex; i++)` collection loop of
`virtualItems`, with the `if (pos)` existence guard; `cnt` is the number of
remaining indices (`endIndex + 1 - i`). -/
def collectItems (tbl : List PosEntry) : Int → Nat → List VirtualItem
  | lo, cnt + 1 =>
    (match getPos tbl lo with
     | some pos => [⟨lo, pos.start, pos.stop, pos.size⟩]
     | none => []) ++ collectItems tbl (lo + 1) cnt
  | _, 0 => []

/-- Model of `virtualItems`: empty when there are no items or the viewport extent is
unmeasured (0); otherwise the entries for the overscan-padded clamped range
`[max 0 (findStartIndex - overscan), min (length-1) (findEndIndex + overscan)]`. -/
def virtualItems (tbl : List PosEntry) (scrollTop extent : Int)
    (overscan : Int) : List VirtualItem :=
  if tbl.length = 0 || extent = 0 then []
  else
    let s := max 0 (findStartIndex tbl scrollTop - overscan)
    let e := min ((tbl.length : Int) - 1) (findEndIndex tbl scrollTop extent + overscan)
    collectItems tbl s (e + 1 - s).toNat

/-- Alignment argument of `scrollToIndex` (source values `start`, `center`,
`end`; `end` is a Lean keyword, rendered `stop`). -/
inductive Align where
  | start
  | center
  | stop
deriving DecidableEq, Repr

/-- The target offset computed by `scrollToIndex(index, align)` in local
addressing mode: `none` when the index is invalid (out of `[0, itemCount)`)
or has no table entry; otherwise the alignment formula clamped to `≥ 0`.
The two divisions are exact (JavaScript numbers), hence the `ℚ` result. -/
def scrollToIndexTarget (tbl : List PosEntry) (extent : ℚ) (index : Int)
    (align : Align) : Option ℚ :=
  if index < 0 || (tbl.length : Int) ≤ index then none
  else
    match getPos tbl index with
    | none => none
    | some pos =>
      let t : ℚ :=
        match align with
        | .start => (pos.start : ℚ)
        | .center => (pos.start : ℚ) - extent / 2 + (pos.size : ℚ) / 2
        | .stop => (pos.stop : ℚ) - extent
      some (max 0 t)

/-! ## Theorems on the continuation algorithm -/

/-- Claim C1: after every successful fetch, `hasMore` is decided by the
first applicable rule of the strict priority order: a supplied custom
predicate wins; else cursor mode with a `getNextCursor` extractor yields
`hasMore = (next cursor present)`; else page mode with a `getTotal`
extractor yields `hasMore = (accumulated length < total)`; else the
fallback `hasMore = (newly extracted items ≥ limit)`.  The four cases
cover every configuration, so exactly the first applicable rule decides. -/
theorem checkHasMore_priority {TData TItem ε : Type}
    (env : FetchEnv TData TItem ε) (total0 : Option Int) (r : TData)
    (allItems : List TItem) :
    (∀ f b, env.hasMoreFn = some f → f r allItems = .ok b →
      checkHasMore env total0 r allItems = .ok (b, total0)) ∧
    (∀ g c, env.hasMoreFn = none → env.isPage = false →
      env.getNextCursor = some g → g r = .ok c →
      checkHasMore env total0 r allItems = .ok (c.isSome, total0)) ∧
    (∀ t tot, env.hasMoreFn = none → env.isPage = true →
      env.getTotal = some t → t r = .ok tot →
      checkHasMore env total0 r allItems =
        .ok (decide ((allItems.length : Int) < tot), some tot)) ∧
    (∀ ni, env.hasMoreFn = none →
      (env.isPage = false → env.getNextCursor = none) →
      (env.isPage = true → env.getTotal = none) →
      env.getData r = .ok ni →
      checkHasMore env total0 r allItems =
        .ok (decide (env.limit ≤ ni.length), total0)) := by
  refine ⟨?_, ?_, ?_, ?_⟩
  · intro f b hf hfr
    simp [checkHasMore, Except.map, hf, hfr]
  · intro g c hfn hp hg hgr
    simp [checkHasMore, Except.map, hfn, hp, hg, hgr]
  · intro t tot hfn hp ht htr
    simp [checkHasMore, Except.map, hfn, hp, ht, htr]
  · intro ni hfn hnc hnt hni
    rcases hp : env.isPage with _ | _
    · simp [checkHasMore, Except.map, hfn, hp, hnc hp, hni]
    · simp [checkHasMore, Except.map, hfn, hp, hnt hp, hni]

/-- A configuration with a custom `hasMore` predicate, for the C1 witness. -/
def envW1 : FetchEnv Unit Nat String where
  isPage := true
  limit := 20
  initialPage := 1
  initialCursor := none
  fetcher := fun _ => .ok ()
  getData := fun _ => .ok []
  getTotal := none
  getNextCursor := none
  hasMoreFn := some (fun _ _ => .ok true)

/-- Witness for C1: the custom predicate decides on a concrete
configuration. -/
theorem checkHasMore_priority_witness :
    checkHasMore envW1 none () [] = .ok (true, none) :=
  (checkHasMore_priority envW1 none () []).1 (fun _ _ => .ok true) true rfl rfl

/-! ## Theorems on scrollToIndex -/

/-- Claim C8: `scrollToIndex(index, align)` is a no-op for
`index < 0 ∨ index ≥ itemCount`; otherwise, in local addressing mode, the
target offset is a pure function of the index, alignment, Position Index
entry and viewport extent — `entry.start` for `start`,
`entry.start − extent/2 + size/2` for `center`, `entry.end − extent` for
`end` — clamped to `≥ 0`. -/
theorem scrollToIndex_spec (tbl : List PosEntry) (extent : ℚ) (index : Int)
    (align : Align) :
    (index < 0 ∨ (tbl.length : Int) ≤ index →
      scrollToIndexTarget tbl extent index align = none) ∧
    (∀ pos, getPos tbl index = some pos →
      0 ≤ index → index < (tbl.length : Int) →
      scrollToIndexTarget tbl extent index align =
        some (max 0 (match align with
          | .start => (pos.start : ℚ)
          | .center => (pos.start : ℚ) - extent / 2 + (pos.size : ℚ) / 2
          | .stop => (pos.stop : ℚ) - extent))) ∧
    (∀ q, scrollToIndexTarget tbl extent index align = some q → 0 ≤ q) := by
  refine ⟨?_, ?_, ?_⟩
  · intro hbad
    rcases hbad with hlt | hge
    · simp [scrollToIndexTarget, hlt]
    · have : ¬ ((tbl.length : Int) ≤ index → False) := fun hk => hk hge
      simp [scrollToIndexTarget, hge]
  · intro pos hpos h0 hlen
    have h1 : ¬ index < 0 := not_lt.mpr h0
    have h2 : ¬ (tbl.length : Int) ≤ index := not_le.mpr hlen
    simp [scrollToIndexTarget, h1, h2, hpos]
  · intro q hq
    simp only [scrollToIndexTarget] at hq
    split at hq
    · simp at hq
    · split at hq
      · simp at hq
      · simp only [Option.some.injEq] at hq
        subst hq
        exact le_max_left _ _

/-- Witness for C8: a concrete one-entry table, `start` alignment. -/
theorem scrollToIndex_spec_witness :
    scrollToIndexTarget [⟨0, 50, 50⟩] 30 0 Align.start =
      some (max 0 (((0 : Int) : ℚ))) :=
  (scrollToIndex_spec [⟨0, 50, 50⟩] 30 0 Align.start).2.1 ⟨0, 50, 50⟩ rfl
    (by decide) (by decide)

/-! ## Helper lemmas on fetchData -/

theorem startCtrl_fields (lm : Bool) (s : Ctrl TItem ε) :
    (startCtrl lm s).items = s.items ∧ (startCtrl lm s).page = s.page ∧
    (startCtrl lm s).cursor = s.cursor ∧ (startCtrl lm s).total = s.total ∧
    (startCtrl lm s).hasMore = s.hasMore ∧ (startCtrl lm s).error = none ∧
    (startCtrl lm s).events = s.events := by
  cases lm <;> simp [startCtrl]

theorem mkParams_startCtrl (env : FetchEnv TData TItem ε) (lm : Bool)
    (s : Ctrl TItem ε) : mkParams env (startCtrl lm s) = mkParams env s := by
  cases lm <;> simp [mkParams, startCtrl]

theorem fetchData_guards (env : FetchEnv TData TItem ε) (lm : Bool)
    (s : Ctrl TItem ε) (h1 : s.isFetching = false)
    (h2 : lm = true → s.hasMore = true) :
    fetchData env lm s = fetchBody env lm (startCtrl lm s) := by
  cases lm with
  | false => simp [fetchData, h1, startCtrl]
  | true => simp [fetchData, h1, h2 rfl, startCtrl]

theorem fetchBody_fetchErr (env : FetchEnv TData TItem ε) (lm : Bool)
    (s1 : Ctrl TItem ε) (e : ε)
    (hf : env.fetcher (mkParams env s1) = .error e) :
    fetchBody env lm s1 = failWith s1 e := by
  simp [fetchBody, hf]

theorem fetchBody_dataErr (env : FetchEnv TData TItem ε) (lm : Bool)
    (s1 : Ctrl TItem ε) (r : TData) (e : ε)
    (hf : env.fetcher (mkParams env s1) = .ok r)
    (hd : env.getData r = .error e) :
    fetchBody env lm s1 = failWith s1 e := by
  simp [fetchBody, hf, hd]

theorem fetchBody_success_error (env : FetchEnv TData TItem ε) (lm : Bool)
    (s1 : Ctrl TItem ε) (r : TData) (ni : List TItem) (b : Bool)
    (t' : Option Int)
    (hf : env.fetcher (mkParams env s1) = .ok r)
    (hd : env.getData r = .ok ni)
    (hadv : env.isPage = false → ∀ g, env.getNextCursor = some g →
      ∃ c, g r = .ok c)
    (hchk : checkHasMore env s1.total r
      (if lm = true then s1.items ++ ni else ni) = .ok (b, t')) :
    (fetchBody env lm s1).1.error = s1.error ∧
    (fetchBody env lm s1).2 = ⟨(if lm = true then s1.items ++ ni else ni).length, b⟩ := by
  rcases hp : env.isPage with _ | _
  · rcases hg : env.getNextCursor with _ | g
    · simp [fetchBody, hf, hd, hp, hg, hchk]
    · obtain ⟨c, hc⟩ := hadv hp g hg
      simp [fetchBody, hf, hd, hp, hg, hc, hchk]
  · simp [fetchBody, hf, hd, hp, hchk]

/-! ## Theorems on fetch failure and the error slot -/

/-- Claim C10: every fetch that actually issues a request clears the error
slot before awaiting the fetcher; consequently a fetch that fails stores
the new error (first conjunct), and a fetch that completes successfully
leaves the observable error `none`, whatever error an earlier fetch had
stored (second conjunct). -/
theorem fetch_clears_error_spec {TData TItem ε : Type}
    (env : FetchEnv TData TItem ε) (lm : Bool) (s : Ctrl TItem ε)
    (h1 : s.isFetching = false) (h2 : lm = true → s.hasMore = true) :
    (∀ e, env.fetcher (mkParams env s) = .error e →
      (fetchData env lm s).1.error = some e) ∧
    (∀ r ni b t', env.fetcher (mkParams env s) = .ok r →
      env.getData r = .ok ni →
      (env.isPage = false → ∀ g, env.getNextCursor = some g → ∃ c, g r = .ok c) →
      checkHasMore env s.total r (if lm = true then s.items ++ ni else ni) = .ok (b, t') →
      (fetchData env lm s).1.error = none) := by
  obtain ⟨hit, hpg, hcu, hto, hhm, her, hev⟩ := startCtrl_fields lm s
  constructor
  · intro e hf
    rw [fetchData_guards env lm s h1 h2,
        fetchBody_fetchErr env lm _ e (by rw [mkParams_startCtrl]; exact hf)]
    simp [failWith]
  · intro r ni b t' hf hd hadv hchk
    rw [fetchData_guards env lm s h1 h2]
    have := (fetchBody_success_error env lm (startCtrl lm s) r ni b t'
      (by rw [mkParams_startCtrl]; exact hf) hd hadv
      (by rw [hto, hit]; exact hchk)).1
    rw [this, her]

/-- A configuration whose fetch succeeds, for the C10 witness. -/
def envC10 : FetchEnv Unit Nat String where
  isPage := true
  limit := 20
  initialPage := 1
  initialCursor := none
  fetcher := fun _ => .ok ()
  getData := fun _ => .ok [1]
  getTotal := none
  getNextCursor := none
  hasMoreFn := some (fun _ _ => .ok true)

/-- Witness for C10: a successful fetch from a state holding a stored
error leaves the error slot `none`. -/
theorem fetch_clears_error_spec_witness :
    (fetchData envC10 false { initCtrl envC10 with error := some ("old") }).1.error = none :=
  (fetch_clears_error_spec envC10 false
      { initCtrl envC10 with error := some ("old") } rfl (by simp)).2
    () [1] true none rfl rfl (by intro h; cases h) rfl

/-- Claim C5 (amended part): when the fetcher rejects (equivalently, a
non-success response is thrown) or `getData` throws, the controller stores
the error, invokes the error callback, leaves items, cursor and page
exactly as they were, clears the loading and in-flight flags, and returns
the prior `{itemsCount, hasMore}` snapshot.  (The original claim extended
this to every extraction function; `late_extraction_throw_mutates_state`
refutes that for extractors that run after the item update.) -/
theorem fetch_failure_early_state {TData TItem ε : Type}
    (env : FetchEnv TData TItem ε) (lm : Bool) (s : Ctrl TItem ε) (e : ε)
    (h1 : s.isFetching = false) (h2 : lm = true → s.hasMore = true) :
    (env.fetcher (mkParams env s) = .error e →
      fetchData env lm s =
        ({ s with
            error := some e
            isLoading := false
            isLoadingMore := false
            isFetching := false
            events := s.events ++ [.errorCb e] },
         ⟨s.items.length, s.hasMore⟩)) ∧
    (∀ r, env.fetcher (mkParams env s) = .ok r → env.getData r = .error e →
      fetchData env lm s =
        ({ s with
            error := some e
            isLoading := false
            isLoadingMore := false
            isFetching := false
            events := s.events ++ [.errorCb e] },
         ⟨s.items.length, s.hasMore⟩)) := by
  constructor
  · intro hf
    rw [fetchData_guards env lm s h1 h2,
        fetchBody_fetchErr env lm _ e (by rw [mkParams_startCtrl]; exact hf)]
    cases lm <;> simp [failWith, startCtrl]
  · intro r hf hd
    rw [fetchData_guards env lm s h1 h2,
        fetchBody_dataErr env lm _ r e (by rw [mkParams_startCtrl]; exact hf) hd]
    cases lm <;> simp [failWith, startCtrl]

/-- A configuration whose fetcher rejects, for the C5 witness. -/
def envC5fail : FetchEnv Unit Nat String where
  isPage := true
  limit := 20
  initialPage := 1
  initialCursor := none
  fetcher := fun _ => .error ("network")
  getData := fun _ => .ok []
  getTotal := none
  getNextCursor := none
  hasMoreFn := none

/-- Witness for C5: a rejected fetch from the fresh state stores the error,
logs the callback, and leaves everything else as before. -/
theorem fetch_failure_early_state_witness :
    fetchData envC5fail false (initCtrl envC5fail) =
      ({ initCtrl envC5fail with
          error := some ("network")
          isLoading := false
          isLoadingMore := false
          isFetching := false
          events := [.errorCb ("network")] },
       ⟨0, true⟩) :=
  (fetch_failure_early_state envC5fail false (initCtrl envC5fail) ("network")
      rfl (by intro h; cases h)).1 rfl

/-- A page-mode configuration whose `getTotal` extractor throws, for the
C5 counterexample. -/
def envC5throw : FetchEnv Unit Nat String where
  isPage := true
  limit := 20
  initialPage := 1
  initialCursor := none
  fetcher := fun _ => .ok ()
  getData := fun _ => .ok [7]
  getTotal := some (fun _ => .error ("boom"))
  getNextCursor := none
  hasMoreFn := none

/-- Counterexample to C5 as stated: when `getTotal` throws (page mode, no
custom predicate), the failing fetch has already replaced the items and
advanced the page, and the returned snapshot carries the new item count —
not the prior state. -/
theorem late_extraction_throw_mutates_state :
    (fetchData envC5throw false (initCtrl envC5throw)).1.items = [7] ∧
    (fetchData envC5throw false (initCtrl envC5throw)).1.page = 2 ∧
    (fetchData envC5throw false (initCtrl envC5throw)).1.error = some ("boom") ∧
    (fetchData envC5throw false (initCtrl envC5throw)).2 = ⟨1, true⟩ ∧
    (initCtrl envC5throw).items = [] ∧
    (initCtrl envC5throw).page = 1 := by
  decide

/-! ## Theorems on loadUntilCount -/

theorem loadUntilAux_count_le {TData TItem ε : Type}
    (env : FetchEnv TData TItem ε) (target : Nat) :
    ∀ (fuel : Nat) (s : Ctrl TItem ε),
      (loadUntilAux env target fuel s).2 ≤ fuel := by
  intro fuel
  induction fuel with
  | zero => intro s; simp [loadUntilAux]
  | succ f ih =>
    intro s
    simp only [loadUntilAux]
    split
    · split
      · have := ih (fetchData env true s).1
        simpa using Nat.add_le_add_right this 1
      · simp
    · simp

theorem loadUntilAux_noop {TData TItem ε : Type}
    (env : FetchEnv TData TItem ε) (target : Nat) (s : Ctrl TItem ε)
    (h : target ≤ s.items.length ∨ s.hasMore = false) (fuel : Nat) :
    loadUntilAux env target fuel s = (s, 0) := by
  cases fuel with
  | zero => rfl
  | succ f =>
    have hc : (decide (s.items.length < target) && s.hasMore) = false := by
      rcases h with h | h
      · simp [Nat.not_lt.mpr h]
      · simp [h]
    simp only [loadUntilAux, hc, Bool.false_eq_true, if_false]

theorem loadUntilAux_break {TData TItem ε : Type}
    (env : FetchEnv TData TItem ε) (target : Nat) (s : Ctrl TItem ε)
    (h1 : s.items.length < target) (h2 : s.hasMore = true)
    (h3 : (fetchData env true s).2.hasMore = false) (fuel : Nat) :
    loadUntilAux env target (fuel + 1) s = ((fetchData env true s).1, 1) := by
  simp [loadUntilAux, h1, h2, h3]

/-- The scenario configuration: every fetch returns 20 items and the
custom predicate keeps `hasMore` true. -/
def envC4 : FetchEnv Unit Nat Unit where
  isPage := true
  limit := 20
  initialPage := 1
  initialCursor := none
  fetcher := fun _ => .ok ()
  getData := fun _ => .ok (List.replicate 20 0)
  getTotal := none
  getNextCursor := none
  hasMoreFn := some (fun _ _ => .ok true)

/-- Claim C4: `loadUntilCount(targetCount, maxAttempts)` fetches only while
`items.length < targetCount ∧ hasMore ∧ attempts < maxAttempts` (second
conjunct: outside the guard it performs zero fetches), never performs more
than `maxAttempts` fetches (first conjunct, with `fuel` the remaining
attempts), stops immediately when a fetch reports `hasMore = false` even if
short of the target (third conjunct), and returns the final snapshot.  In
the scenario — target 500, `maxAttempts = 10`, every fetch returning 20
items with `hasMore` true — it returns after exactly 10 fetches with 200
items (fourth conjunct). -/
theorem loadUntilCount_spec :
    (∀ (TData TItem ε : Type) (env : FetchEnv TData TItem ε)
      (target fuel : Nat) (s : Ctrl TItem ε),
      (loadUntilAux env target fuel s).2 ≤ fuel) ∧
    (∀ (TData TItem ε : Type) (env : FetchEnv TData TItem ε)
      (target fuel : Nat) (s : Ctrl TItem ε),
      target ≤ s.items.length ∨ s.hasMore = false →
      loadUntilAux env target fuel s = (s, 0)) ∧
    (∀ (TData TItem ε : Type) (env : FetchEnv TData TItem ε)
      (target fuel : Nat) (s : Ctrl TItem ε),
      s.items.length < target → s.hasMore = true →
      (fetchData env true s).2.hasMore = false →
      loadUntilAux env target (fuel + 1) s = ((fetchData env true s).1, 1)) ∧
    ((loadUntilCount envC4 500 10 (initCtrl envC4)).1.2 = 10 ∧
     (loadUntilCount envC4 500 10 (initCtrl envC4)).2 = ⟨200, true⟩) := by
  refine ⟨?_, ?_, ?_, ?_, ?_⟩
  · intro _ _ _ env target fuel s
    exact loadUntilAux_count_le env target fuel s
  · intro _ _ _ env target fuel s h
    exact loadUntilAux_noop env target s h fuel
  · intro _ _ _ env target fuel s h1 h2 h3
    exact loadUntilAux_break env target s h1 h2 h3 fuel
  · decide
  · decide

/-- Witness for C4: with the target already met, the loop performs zero
fetches and returns the state unchanged. -/
theorem loadUntilCount_spec_witness :
    loadUntilAux envC4 0 5 (initCtrl envC4) = (initCtrl envC4, 0) :=
  loadUntilCount_spec.2.1 Unit Nat Unit envC4 0 5 (initCtrl envC4)
    (Or.inl (Nat.zero_le _))

/-! ## Theorems on the event-level machine -/

/-- At most one fetch outstanding, and the `isFetching` guard tracks it. -/
def flightInv (s : MState) : Prop :=
  s.inFlight ≤ 1 ∧ (s.isFetching = true ↔ s.inFlight = 1)

theorem startFetch_flightInv (lm : Bool) (s : MState) (h : flightInv s) :
    flightInv (startFetch lm s).1 := by
  obtain ⟨h1, h2⟩ := h
  by_cases hf : s.isFetching
  · simp only [startFetch, if_pos hf]
    exact ⟨h1, h2⟩
  · have h0 : s.inFlight = 0 := by
      rcases Nat.eq_or_lt_of_le h1 with h | h
      · exact absurd (h2.mpr h) hf
      · omega
    by_cases hg : (lm && !s.hasMore) = true
    · simp only [startFetch, if_neg hf, if_pos hg]
      exact ⟨h1, h2⟩
    · simp only [startFetch, if_neg hf, if_neg hg]
      exact ⟨by simp [h0], by simp [h0]⟩

theorem stepM_flightInv (s : MState) (e : MEvent) (h : flightInv s)
    (hr : e = .resetEv → s.inFlight = 0) : flightInv (stepM s e) := by
  obtain ⟨h1, h2⟩ := h
  cases e with
  | loadMoreEv =>
    simp only [stepM]
    split
    · exact ⟨h1, h2⟩
    · exact startFetch_flightInv true s ⟨h1, h2⟩
  | fetchStart lm =>
    simp only [stepM]
    exact startFetch_flightInv lm s ⟨h1, h2⟩
  | fetchComplete nc more ok =>
    simp only [stepM]
    split
    · exact ⟨h1, h2⟩
    · exact ⟨by simp; omega, by simp; omega⟩
  | resetEv =>
    have h0 := hr rfl
    simp only [stepM]
    exact ⟨by simp; omega, by simp [h0]⟩
  | effectRun en =>
    simp only [stepM]
    split
    · exact startFetch_flightInv false { s with isInitialized := true } ⟨h1, h2⟩
    · exact ⟨h1, h2⟩

theorem runM_flightInv (t : List MEvent) : ∀ s : MState, flightInv s →
    safeTrace s t = true → flightInv (runM s t) := by
  induction t with
  | nil => intro s h _; exact h
  | cons e t ih =>
    intro s h hsafe
    simp only [safeTrace, Bool.and_eq_true, decide_eq_true_eq] at hsafe
    exact ih (stepM s e) (stepM_flightInv s e h hsafe.1) hsafe.2

/-- Claim C3 (amended part): for every interleaving in which `reset` (and
hence `refresh`) is only invoked while no fetch is outstanding, at most one
fetch is in flight at any instant (first conjunct, an invariant over every
reset-safe trace); and a `loadMore`-driven `fetchData` arriving while a
fetch is outstanding issues no new request and returns the current
snapshot (second conjunct).  (The original claim over *all* interleavings
is refuted by `two_fetches_in_flight_after_reset`: `reset` clears the
`isFetching` guard without cancelling the outstanding fetch.) -/
theorem single_flight_safe_traces :
    (∀ t : List MEvent, safeTrace initM t = true →
      (runM initM t).inFlight ≤ 1) ∧
    (∀ (TData TItem ε : Type) (env : FetchEnv TData TItem ε) (lm : Bool)
      (s : Ctrl TItem ε), s.isFetching = true →
      fetchData env lm s = (s, ⟨s.items.length, s.hasMore⟩)) := by
  constructor
  · intro t hsafe
    exact (runM_flightInv t initM ⟨by simp [initM], by simp [initM]⟩ hsafe).1
  · intro _ _ _ env lm s hf
    simp [fetchData, hf]

/-- Witness for C3: a reset-free trace (initial fetch, its completion, a
`loadMore`) keeps at most one fetch in flight. -/
theorem single_flight_safe_traces_witness :
    (runM initM [.effectRun true, .fetchComplete 20 true true,
      .loadMoreEv]).inFlight ≤ 1 :=
  single_flight_safe_traces.1 _ (by decide)

/-- Counterexample to C3 as stated: a fetch is started, `reset` clears the
`isFetching` guard while it is still outstanding, and the next `loadMore`
starts a second fetch — two fetches in flight at once. -/
theorem two_fetches_in_flight_after_reset :
    (runM initM [.fetchStart false, .resetEv, .loadMoreEv]).inFlight = 2 := by
  decide

/-- The automatic initial fetch fires at most once while `isInitialized`
is never cleared. -/
def autoInv (s : MState) : Prop :=
  s.autoFetches ≤ 1 ∧ (s.isInitialized = false → s.autoFetches = 0)

theorem startFetch_auto (lm : Bool) (s : MState) :
    (startFetch lm s).1.autoFetches = s.autoFetches ∧
    (startFetch lm s).1.isInitialized = s.isInitialized := by
  unfold startFetch
  split
  · exact ⟨rfl, rfl⟩
  · split
    · exact ⟨rfl, rfl⟩
    · exact ⟨rfl, rfl⟩

theorem stepM_autoInv (s : MState) (e : MEvent) (h : autoInv s)
    (hne : e ≠ .resetEv) : autoInv (stepM s e) := by
  obtain ⟨h1, h2⟩ := h
  cases e with
  | loadMoreEv =>
    simp only [stepM]
    split
    · exact ⟨h1, h2⟩
    · obtain ⟨ha, hi⟩ := startFetch_auto true s
      refine ⟨?_, ?_⟩
      · rw [ha]; exact h1
      · intro hini
        rw [hi] at hini
        rw [ha]; exact h2 hini
  | fetchStart lm =>
    simp only [stepM]
    obtain ⟨ha, hi⟩ := startFetch_auto lm s
    refine ⟨?_, ?_⟩
    · rw [ha]; exact h1
    · intro hini
      rw [hi] at hini
      rw [ha]; exact h2 hini
  | fetchComplete nc more ok =>
    simp only [stepM]
    split
    · exact ⟨h1, h2⟩
    · exact ⟨h1, h2⟩
  | resetEv => exact absurd rfl hne
  | effectRun en =>
    simp only [stepM]
    split
    · next hcond =>
      simp only [Bool.and_eq_true, Bool.not_eq_true'] at hcond
      have h0 : s.autoFetches = 0 := h2 hcond.2
      obtain ⟨ha, hi⟩ := startFetch_auto false { s with isInitialized := true }
      refine ⟨?_, ?_⟩
      · simp only [ha]
        simp [h0]
        split <;> simp
      · intro hbad
        simp only [hi] at hbad
        simp at hbad
    · exact ⟨h1, h2⟩

theorem runM_autoInv (t : List MEvent) : ∀ s : MState, autoInv s →
    MEvent.resetEv ∉ t → autoInv (runM s t) := by
  induction t with
  | nil => intro s h _; exact h
  | cons e t ih =>
    intro s h hne
    have he : e ≠ .resetEv := fun hh => hne (hh ▸ List.mem_cons_self e t)
    exact ih (stepM s e) (stepM_autoInv s e h he)
      (fun hh => hne (List.mem_cons_of_mem e hh))

/-- Claim C9 (amended part): for every trace that never calls `reset` (and
hence never `refresh`), the automatic initial fetch is issued at most once
(first conjunct), and the first effect run with `enabled` from the initial
state issues exactly one request (second and third conjuncts).  (The
original claim — never reissued even across `reset`/`refresh` — is refuted
by `reset_rearms_initial_fetch`: `reset` clears `isInitializedRef`, so the
next effect run fires another automatic fetch.) -/
theorem initial_fetch_once_no_reset :
    (∀ t : List MEvent, MEvent.resetEv ∉ t →
      (runM initM t).autoFetches ≤ 1) ∧
    (stepM initM (.effectRun true)).autoFetches = 1 ∧
    (stepM initM (.effectRun true)).reqs = 1 := by
  refine ⟨?_, by decide, by decide⟩
  intro t ht
  exact (runM_autoInv t initM ⟨by simp [initM], fun _ => by simp [initM]⟩ ht).1

/-- Witness for C9: a reset-free trace with two effect runs still issues at
most one automatic fetch. -/
theorem initial_fetch_once_no_reset_witness :
    (runM initM [.effectRun true, .effectRun true, .loadMoreEv]).autoFetches ≤ 1 :=
  initial_fetch_once_no_reset.1 _ (by decide)

/-- Counterexample to C9 as stated: effect run, then `reset`, then another
effect run — the automatic initial fetch is issued twice for the same
controller instance. -/
theorem reset_rearms_initial_fetch :
    (runM initM [.effectRun true, .resetEv, .effectRun true]).autoFetches = 2 := by
  decide

/-! ## Position Index lemmas -/

theorem heightSum_shift (h : Nat → Int) (i k : Nat) :
    (Finset.range (k + 1)).sum (fun j => h (i + j)) =
      h i + (Finset.range k).sum (fun j => h (i + 1 + j)) := by
  rw [Finset.sum_range_succ']
  rw [Finset.sum_congr rfl (fun j _ => congrArg h (show i + (j + 1) = i + 1 + j by omega))]
  rw [Nat.add_zero]
  exact add_comm _ _

theorem buildLoop_length (h : Nat → Int) :
    ∀ (cnt i : Nat) (off : Int), ((buildLoop h i cnt off).1).length = cnt := by
  intro cnt
  induction cnt with
  | zero => intro i off; rfl
  | succ c ih => intro i off; simp [buildLoop, ih]

theorem buildLoop_get (h : Nat → Int) :
    ∀ (cnt k i : Nat) (off : Int), k < cnt →
      ((buildLoop h i cnt off).1).get? k =
        some ⟨off + (Finset.range k).sum (fun j => h (i + j)),
              off + (Finset.range k).sum (fun j => h (i + j)) + h (i + k),
              h (i + k)⟩ := by
  intro cnt
  induction cnt with
  | zero => intro k i off hk; omega
  | succ c ih =>
    intro k i off hk
    cases k with
    | zero => simp [buildLoop]
    | succ k =>
      have hk' : k < c := by omega
      simp only [buildLoop, List.get?_cons_succ]
      rw [ih k (i + 1) (off + h i) hk']
      rw [heightSum_shift h i k]
      rw [show i + 1 + k = i + (k + 1) by omega]
      simp [add_assoc]

theorem buildLoop_snd (h : Nat → Int) :
    ∀ (cnt i : Nat) (off : Int),
      (buildLoop h i cnt off).2 =
        off + (Finset.range cnt).sum (fun j => h (i + j)) := by
  intro cnt
  induction cnt with
  | zero => intro i off; simp [buildLoop]
  | succ c ih =>
    intro i off
    simp only [buildLoop]
    rw [ih (i + 1) (off + h i), heightSum_shift h i c]
    ring

theorem itemPositions_length (h : Nat → Int) (n : Nat) :
    (itemPositions h n).length = n :=
  buildLoop_length h n 0 0

theorem itemPositions_get (h : Nat → Int) {n k : Nat} (hk : k < n) :
    (itemPositions h n).get? k =
      some ⟨heightSum h k, heightSum h k + h k, h k⟩ := by
  unfold itemPositions
  rw [buildLoop_get h n k 0 0 hk]
  simp [heightSum]

theorem totalHeight_eq (h : Nat → Int) (n : Nat) :
    totalHeight h n = heightSum h n := by
  unfold totalHeight
  rw [buildLoop_snd h n 0 0]
  simp [heightSum]

theorem heightSum_succ (h : Nat → Int) (k : Nat) :
    heightSum h (k + 1) = heightSum h k + h k :=
  Finset.sum_range_succ h k

theorem heightSum_mono (h : Nat → Int) (hnn : ∀ i, 0 ≤ h i) {a b : Nat}
    (hab : a ≤ b) : heightSum h a ≤ heightSum h b := by
  apply Finset.sum_le_sum_of_subset_of_nonneg
  · exact Finset.range_subset.mpr hab
  · intro i _ _
    exact hnn i

theorem heightSum_nonneg (h : Nat → Int) (hnn : ∀ i, 0 ≤ h i) (k : Nat) :
    0 ≤ heightSum h k :=
  Finset.sum_nonneg fun i _ => hnn i

/-- Reading `heightSum` at an `Int` index (clamped below at 0), matching how
the binary searches index the table. -/
def heightSumI (h : Nat → Int) (m : Int) : Int :=
  heightSum h m.toNat

theorem heightSumI_succ (h : Nat → Int) (m : Int) (hm : 0 ≤ m) :
    heightSumI h (m + 1) = heightSumI h m + h m.toNat := by
  unfold heightSumI
  rw [show (m + 1).toNat = m.toNat + 1 by omega]
  exact Finset.sum_range_succ h m.toNat

theorem heightSumI_mono (h : Nat → Int) (hnn : ∀ i, 0 ≤ h i) {a b : Int}
    (hab : a ≤ b) : heightSumI h a ≤ heightSumI h b :=
  heightSum_mono h hnn (by omega)

theorem heightSumI_nonneg (h : Nat → Int) (hnn : ∀ i, 0 ≤ h i) (m : Int) :
    0 ≤ heightSumI h m :=
  heightSum_nonneg h hnn m.toNat

theorem heightSumI_natCast (h : Nat → Int) (k : Nat) :
    heightSumI h (k : Int) = heightSum h k := by
  simp [heightSumI]

theorem getPos_itemPositions (h : Nat → Int) (n : Nat) (m : Int)
    (h0 : 0 ≤ m) (h1 : m < (n : Int)) :
    getPos (itemPositions h n) m =
      some ⟨heightSumI h m, heightSumI h m + h m.toNat, h m.toNat⟩ := by
  have hk : m.toNat < n := by omega
  unfold getPos
  rw [if_pos h0, itemPositions_get h hk]
  simp [heightSumI]

/-! ## Theorem on the Position Index -/

/-- Claim C6: the Position Index is a left-to-right prefix-sum table:
`entry[i].start = h 0 + ⋯ + h (i-1)`, `entry[i].end = entry[i].start + h i`,
`entry[i].size = entry[i].end - entry[i].start = h i`, which is `≥ 0` for
non-negative heights (zero heights permitted); the total extent is
`entry[n-1].end` for non-empty sequences and `0` when empty. -/
theorem itemPositions_prefix_sum (h : Nat → Int) (n : Nat) :
    (∀ k, k < n → (itemPositions h n).get? k =
      some ⟨heightSum h k, heightSum h k + h k, h k⟩) ∧
    (∀ e, e ∈ itemPositions h n →
      e.size = e.stop - e.start ∧ ((∀ i, 0 ≤ h i) → 0 ≤ e.size)) ∧
    totalHeight h n = heightSum h n ∧
    (0 < n → ∀ e, (itemPositions h n).get? (n - 1) = some e →
      totalHeight h n = e.stop) ∧
    (n = 0 → totalHeight h n = 0 ∧ itemPositions h n = []) := by
  refine ⟨fun k hk => itemPositions_get h hk, ?_, totalHeight_eq h n, ?_, ?_⟩
  · intro e he
    obtain ⟨k, hk⟩ := List.mem_iff_get?.mp he
    obtain ⟨hlt, _⟩ := List.get?_eq_some.mp hk
    rw [itemPositions_length] at hlt
    rw [itemPositions_get h hlt] at hk
    injection hk with hk
    subst hk
    refine ⟨?_, fun hnn => hnn k⟩
    show h k = heightSum h k + h k - heightSum h k
    ring
  · intro hn e he
    have hlt : n - 1 < n := by omega
    rw [itemPositions_get h hlt] at he
    injection he with he
    rw [totalHeight_eq, ← he]
    show heightSum h n = (⟨heightSum h (n - 1), heightSum h (n - 1) + h (n - 1),
      h (n - 1)⟩ : PosEntry).stop
    rw [show heightSum h n = heightSum h ((n - 1) + 1) by
        rw [show n - 1 + 1 = n by omega],
      heightSum_succ]
  · intro hn
    subst hn
    exact ⟨rfl, rfl⟩

/-- Witness for C6: the table for two items of height 2. -/
theorem itemPositions_prefix_sum_witness :
    (itemPositions (fun _ => (2 : Int)) 2).get? 1 = some ⟨2, 4, 2⟩ := by
  have := (itemPositions_prefix_sum (fun _ => (2 : Int)) 2).1 1 (by omega)
  rw [this]
  decide

/-! ## Binary search lemmas -/

/-- Postcondition of an in-bounds visible-range search: a valid index whose
entry `[heightSumI r, heightSumI (r+1)]` contains the searched offset. -/
def searchOk (h : Nat → Int) (n : Nat) (x r : Int) : Prop :=
  0 ≤ r ∧ r < (n : Int) ∧ heightSumI h r ≤ x ∧ x ≤ heightSumI h (r + 1)

theorem heightSumI_zero (h : Nat → Int) : heightSumI h 0 = 0 := by
  simp [heightSumI, heightSum]

/-- The search loops cannot exit with `low = high + 1` while the searched
offset is inside the table extent: the loop invariants on both sides of
the interval contradict the prefix-sum tiling. -/
theorem noExit_search (h : Nat → Int) (n : Nat) (x : Int)
    (hn : 0 < n) (hx0 : 0 ≤ x) (hxT : x ≤ heightSum h n)
    (low high : Int) (hlo : 0 ≤ low) (hlow : low = high + 1)
    (hL : ∀ m : Int, 0 ≤ m → m < low → heightSumI h (m + 1) < x)
    (hR : ∀ m : Int, high < m → m < (n : Int) → x < heightSumI h m) : False := by
  rcases lt_or_ge low (n : Int) with hlt | hge
  · rcases eq_or_lt_of_le hlo with h0 | h0
    · have hr := hR 0 (by omega) (by omega)
      have hz := heightSumI_zero h
      omega
    · have hr := hR low (by omega) hlt
      have hl := hL (low - 1) (by omega) (by omega)
      rw [show low - 1 + 1 = low by ring] at hl
      omega
  · have hl := hL ((n : Int) - 1) (by omega) (by omega)
    rw [show (n : Int) - 1 + 1 = (n : Int) by ring] at hl
    rw [heightSumI_natCast] at hl
    omega

theorem findStartLoop_mem (h : Nat → Int) (hnn : ∀ i, 0 ≤ h i) (n : Nat)
    (x : Int) (hn : 0 < n) (hx0 : 0 ≤ x) (hxT : x ≤ heightSum h n) :
    ∀ (fuel : Nat) (low high : Int), 0 ≤ low → high ≤ (n : Int) - 1 →
      low ≤ high + 1 → high + 1 - low ≤ (fuel : Int) →
      (∀ m : Int, 0 ≤ m → m < low → heightSumI h (m + 1) < x) →
      (∀ m : Int, high < m → m < (n : Int) → x < heightSumI h m) →
      searchOk h n x (findStartLoop (itemPositions h n) x fuel low high) := by
  intro fuel
  induction fuel with
  | zero =>
    intro low high hlo hhi hle hfuel hL hR
    exact (noExit_search h n x hn hx0 hxT low high hlo (by omega) hL hR).elim
  | succ f ih =>
    intro low high hlo hhi hle hfuel hL hR
    simp only [findStartLoop]
    split
    · next hlh =>
      have hm0 : 0 ≤ (low + high) / 2 := by omega
      have hmlo : low ≤ (low + high) / 2 := by omega
      have hmhi : (low + high) / 2 ≤ high := by omega
      have hmn : (low + high) / 2 < (n : Int) := by omega
      split
      · next hnone =>
        rw [getPos_itemPositions h n _ hm0 hmn] at hnone
        cases hnone
      · next pos hsome =>
        rw [getPos_itemPositions h n _ hm0 hmn] at hsome
        have hpos : pos = ⟨heightSumI h ((low + high) / 2),
            heightSumI h ((low + high) / 2) + h ((low + high) / 2).toNat,
            h ((low + high) / 2).toNat⟩ := by
          injection hsome with hsome
          exact hsome.symm
        have hstart : pos.start = heightSumI h ((low + high) / 2) := by rw [hpos]
        have hstop : pos.stop =
            heightSumI h ((low + high) / 2) + h ((low + high) / 2).toNat := by
          rw [hpos]
        have hss := heightSumI_succ h ((low + high) / 2) hm0
        split
        · next hc1 =>
          rw [hstop] at hc1
          refine ih ((low + high) / 2 + 1) high (by omega) hhi (by omega)
            (by omega) ?_ hR
          intro m hm0' hmlt
          rcases lt_or_ge m low with hml | hml
          · exact hL m hm0' hml
          · have hmono := heightSumI_mono h hnn
              (show m + 1 ≤ (low + high) / 2 + 1 by omega)
            omega
        · split
          · next hc2 =>
            rw [hstart] at hc2
            refine ih low ((low + high) / 2 - 1) hlo (by omega) (by omega)
              (by omega) hL ?_
            intro m hmgt hmlt
            have hmono := heightSumI_mono h hnn
              (show (low + high) / 2 ≤ m by omega)
            omega
          · next hc1 hc2 =>
            rw [hstop] at hc1
            rw [hstart] at hc2
            exact ⟨hm0, hmn, by omega, by omega⟩
    · next hlh =>
      exact (noExit_search h n x hn hx0 hxT low high hlo (by omega) hL hR).elim

theorem findEndLoop_mem (h : Nat → Int) (hnn : ∀ i, 0 ≤ h i) (n : Nat)
    (x : Int) (hn : 0 < n) (hx0 : 0 ≤ x) (hxT : x ≤ heightSum h n) :
    ∀ (fuel : Nat) (low high : Int), 0 ≤ low → high ≤ (n : Int) - 1 →
      low ≤ high + 1 → high + 1 - low ≤ (fuel : Int) →
      (∀ m : Int, 0 ≤ m → m < low → heightSumI h (m + 1) < x) →
      (∀ m : Int, high < m → m < (n : Int) → x < heightSumI h m) →
      searchOk h n x (findEndLoop (itemPositions h n) x fuel low high) := by
  intro fuel
  induction fuel with
  | zero =>
    intro low high hlo hhi hle hfuel hL hR
    exact (noExit_search h n x hn hx0 hxT low high hlo (by omega) hL hR).elim
  | succ f ih =>
    intro low high hlo hhi hle hfuel hL hR
    simp only [findEndLoop]
    split
    · next hlh =>
      have hm0 : 0 ≤ (low + high) / 2 := by omega
      have hmlo : low ≤ (low + high) / 2 := by omega
      have hmhi : (low + high) / 2 ≤ high := by omega
      have hmn : (low + high) / 2 < (n : Int) := by omega
      split
      · next hnone =>
        rw [getPos_itemPositions h n _ hm0 hmn] at hnone
        cases hnone
      · next pos hsome =>
        rw [getPos_itemPositions h n _ hm0 hmn] at hsome
        have hpos : pos = ⟨heightSumI h ((low + high) / 2),
            heightSumI h ((low + high) / 2) + h ((low + high) / 2).toNat,
            h ((low + high) / 2).toNat⟩ := by
          injection hsome with hsome
          exact hsome.symm
        have hstart : pos.start = heightSumI h ((low + high) / 2) := by rw [hpos]
        have hstop : pos.stop =
            heightSumI h ((low + high) / 2) + h ((low + high) / 2).toNat := by
          rw [hpos]
        have hss := heightSumI_succ h ((low + high) / 2) hm0
        split
        · next hc2 =>
          rw [hstart] at hc2
          refine ih low ((low + high) / 2 - 1) hlo (by omega) (by omega)
            (by omega) hL ?_
          intro m hmgt hmlt
          have hmono := heightSumI_mono h hnn
            (show (low + high) / 2 ≤ m by omega)
          omega
        · split
          · next hc1 =>
            rw [hstop] at hc1
            refine ih ((low + high) / 2 + 1) high (by omega) hhi (by omega)
              (by omega) ?_ hR
            intro m hm0' hmlt
            rcases lt_or_ge m low with hml | hml
            · exact hL m hm0' hml
            · have hmono := heightSumI_mono h hnn
                (show m + 1 ≤ (low + high) / 2 + 1 by omega)
              omega
          · next hc2 hc1 =>
            rw [hstop] at hc1
            rw [hstart] at hc2
            exact ⟨hm0, hmn, by omega, by omega⟩
    · next hlh =>
      exact (noExit_search h n x hn hx0 hxT low high hlo (by omega) hL hR).elim

theorem findStartLoop_below (h : Nat → Int) (hnn : ∀ i, 0 ≤ h i) (n : Nat)
    (x : Int) (hx : x < 0) :
    ∀ (fuel : Nat) (low high : Int), 0 ≤ low → high ≤ (n : Int) - 1 →
      findStartLoop (itemPositions h n) x fuel low high = max 0 low := by
  intro fuel
  induction fuel with
  | zero => intro low high _ _; simp only [findStartLoop]
  | succ f ih =>
    intro low high hlo hhi
    simp only [findStartLoop]
    split
    · next hlh =>
      have hm0 : 0 ≤ (low + high) / 2 := by omega
      have hmn : (low + high) / 2 < (n : Int) := by omega
      split
      · rfl
      · next pos hsome =>
        rw [getPos_itemPositions h n _ hm0 hmn] at hsome
        have hpos : pos = ⟨heightSumI h ((low + high) / 2),
            heightSumI h ((low + high) / 2) + h ((low + high) / 2).toNat,
            h ((low + high) / 2).toNat⟩ := by
          injection hsome with hsome
          exact hsome.symm
        have hstart : pos.start = heightSumI h ((low + high) / 2) := by rw [hpos]
        have hstop : pos.stop =
            heightSumI h ((low + high) / 2) + h ((low + high) / 2).toNat := by
          rw [hpos]
        have hsnn := heightSumI_nonneg h hnn ((low + high) / 2)
        have hhnn := hnn ((low + high) / 2).toNat
        split
        · next hc1 => rw [hstop] at hc1; omega
        · split
          · next hc2 => exact ih low ((low + high) / 2 - 1) hlo (by omega)
          · next hc1 hc2 => rw [hstart] at hc2; omega
    · rfl

theorem findStartLoop_above (h : Nat → Int) (hnn : ∀ i, 0 ≤ h i) (n : Nat)
    (x : Int) (hx : heightSum h n < x) :
    ∀ (fuel : Nat) (low high : Int), 0 ≤ low → low ≤ high + 1 →
      high ≤ (n : Int) - 1 → high + 1 - low ≤ (fuel : Int) →
      findStartLoop (itemPositions h n) x fuel low high = max 0 (high + 1) := by
  intro fuel
  induction fuel with
  | zero =>
    intro low high hlo hle hhi hfuel
    simp only [findStartLoop]
    omega
  | succ f ih =>
    intro low high hlo hle hhi hfuel
    simp only [findStartLoop]
    split
    · next hlh =>
      have hm0 : 0 ≤ (low + high) / 2 := by omega
      have hmn : (low + high) / 2 < (n : Int) := by omega
      split
      · next hnone =>
        rw [getPos_itemPositions h n _ hm0 hmn] at hnone
        cases hnone
      · next pos hsome =>
        rw [getPos_itemPositions h n _ hm0 hmn] at hsome
        have hpos : pos = ⟨heightSumI h ((low + high) / 2),
            heightSumI h ((low + high) / 2) + h ((low + high) / 2).toNat,
            h ((low + high) / 2).toNat⟩ := by
          injection hsome with hsome
          exact hsome.symm
        have hstart : pos.start = heightSumI h ((low + high) / 2) := by rw [hpos]
        have hstop : pos.stop =
            heightSumI h ((low + high) / 2) + h ((low + high) / 2).toNat := by
          rw [hpos]
        have hss := heightSumI_succ h ((low + high) / 2) hm0
        have hupper : heightSumI h ((low + high) / 2 + 1) ≤ heightSum h n := by
          have := heightSumI_mono h hnn
            (show (low + high) / 2 + 1 ≤ ((n : Nat) : Int) by omega)
          rwa [heightSumI_natCast] at this
        have hupper2 : heightSumI h ((low + high) / 2) ≤ heightSum h n := by
          have := heightSumI_mono h hnn
            (show (low + high) / 2 ≤ ((n : Nat) : Int) by omega)
          rwa [heightSumI_natCast] at this
        split
        · next hc1 =>
          exact ih ((low + high) / 2 + 1) high (by omega) (by omega) hhi (by omega)
        · split
          · next hc1 hc2 => rw [hstart] at hc2; omega
          · next hc1 hc2 => rw [hstop] at hc1; omega
    · omega

theorem findEndLoop_below (h : Nat → Int) (hnn : ∀ i, 0 ≤ h i) (n : Nat)
    (x : Int) (hx : x < 0) :
    ∀ (fuel : Nat) (low high : Int), 0 ≤ low → high ≤ (n : Int) - 1 →
      findEndLoop (itemPositions h n) x fuel low high =
        min ((n : Int) - 1) low := by
  intro fuel
  induction fuel with
  | zero => intro low high _ _; simp only [findEndLoop, itemPositions_length]
  | succ f ih =>
    intro low high hlo hhi
    simp only [findEndLoop]
    split
    · next hlh =>
      have hm0 : 0 ≤ (low + high) / 2 := by omega
      have hmn : (low + high) / 2 < (n : Int) := by omega
      split
      · simp [itemPositions_length]
      · next pos hsome =>
        rw [getPos_itemPositions h n _ hm0 hmn] at hsome
        have hpos : pos = ⟨heightSumI h ((low + high) / 2),
            heightSumI h ((low + high) / 2) + h ((low + high) / 2).toNat,
            h ((low + high) / 2).toNat⟩ := by
          injection hsome with hsome
          exact hsome.symm
        have hstart : pos.start = heightSumI h ((low + high) / 2) := by rw [hpos]
        have hsnn := heightSumI_nonneg h hnn ((low + high) / 2)
        split
        · next hc2 => exact ih low ((low + high) / 2 - 1) hlo (by omega)
        · next hc2 => rw [hstart] at hc2; omega
    · simp [itemPositions_length]

theorem findEndLoop_above (h : Nat → Int) (hnn : ∀ i, 0 ≤ h i) (n : Nat)
    (x : Int) (hx : heightSum h n < x) :
    ∀ (fuel : Nat) (low high : Int), 0 ≤ low → low ≤ high + 1 →
      high ≤ (n : Int) - 1 → high + 1 - low ≤ (fuel : Int) →
      findEndLoop (itemPositions h n) x fuel low high =
        min ((n : Int) - 1) (high + 1) := by
  intro fuel
  induction fuel with
  | zero =>
    intro low high hlo hle hhi hfuel
    simp only [findEndLoop, itemPositions_length]
    omega
  | succ f ih =>
    intro low high hlo hle hhi hfuel
    simp only [findEndLoop]
    split
    · next hlh =>
      have hm0 : 0 ≤ (low + high) / 2 := by omega
      have hmn : (low + high) / 2 < (n : Int) := by omega
      split
      · next hnone =>
        rw [getPos_itemPositions h n _ hm0 hmn] at hnone
        cases hnone
      · next pos hsome =>
        rw [getPos_itemPositions h n _ hm0 hmn] at hsome
        have hpos : pos = ⟨heightSumI h ((low + high) / 2),
            heightSumI h ((low + high) / 2) + h ((low + high) / 2).toNat,
            h ((low + high) / 2).toNat⟩ := by
          injection hsome with hsome
          exact hsome.symm
        have hstart : pos.start = heightSumI h ((low + high) / 2) := by rw [hpos]
        have hstop : pos.stop =
            heightSumI h ((low + high) / 2) + h ((low + high) / 2).toNat := by
          rw [hpos]
        have hss := heightSumI_succ h ((low + high) / 2) hm0
        have hupper : heightSumI h ((low + high) / 2 + 1) ≤ heightSum h n := by
          have := heightSumI_mono h hnn
            (show (low + high) / 2 + 1 ≤ ((n : Nat) : Int) by omega)
          rwa [heightSumI_natCast] at this
        have hupper2 : heightSumI h ((low + high) / 2) ≤ heightSum h n := by
          have := heightSumI_mono h hnn
            (show (low + high) / 2 ≤ ((n : Nat) : Int) by omega)
          rwa [heightSumI_natCast] at this
        split
        · next hc2 => rw [hstart] at hc2; omega
        · split
          · next hc2 hc1 =>
            exact ih ((low + high) / 2 + 1) high (by omega) (by omega) hhi
              (by omega)
          · next hc2 hc1 => rw [hstop] at hc1; omega
    · simp only [itemPositions_length]
      omega

theorem findStartIndex_mem (h : Nat → Int) (hnn : ∀ i, 0 ≤ h i) (n : Nat)
    (x : Int) (hn : 0 < n) (hx0 : 0 ≤ x) (hxT : x ≤ heightSum h n) :
    searchOk h n x (findStartIndex (itemPositions h n) x) := by
  unfold findStartIndex
  rw [itemPositions_length]
  exact findStartLoop_mem h hnn n x hn hx0 hxT (n + 1) 0 ((n : Int) - 1)
    (by omega) (by omega) (by omega) (by push_cast; omega)
    (fun m hm1 hm2 => absurd hm2 (by omega))
    (fun m hm1 hm2 => absurd hm1 (by omega))

theorem findEndIndex_mem (h : Nat → Int) (hnn : ∀ i, 0 ≤ h i) (n : Nat)
    (scrollTop extent : Int) (hn : 0 < n) (hx0 : 0 ≤ scrollTop + extent)
    (hxT : scrollTop + extent ≤ heightSum h n) :
    searchOk h n (scrollTop + extent)
      (findEndIndex (itemPositions h n) scrollTop extent) := by
  unfold findEndIndex
  rw [itemPositions_length]
  exact findEndLoop_mem h hnn n (scrollTop + extent) hn hx0 hxT (n + 1) 0
    ((n : Int) - 1) (by omega) (by omega) (by omega) (by push_cast; omega)
    (fun m hm1 hm2 => absurd hm2 (by omega))
    (fun m hm1 hm2 => absurd hm1 (by omega))

theorem findStartIndex_below (h : Nat → Int) (hnn : ∀ i, 0 ≤ h i) (n : Nat)
    (x : Int) (hx : x < 0) : findStartIndex (itemPositions h n) x = 0 := by
  unfold findStartIndex
  rw [itemPositions_length,
    findStartLoop_below h hnn n x hx (n + 1) 0 ((n : Int) - 1) (by omega)
      (by omega)]
  simp

theorem findStartIndex_above (h : Nat → Int) (hnn : ∀ i, 0 ≤ h i) (n : Nat)
    (x : Int) (hx : heightSum h n < x) :
    findStartIndex (itemPositions h n) x = (n : Int) := by
  unfold findStartIndex
  rw [itemPositions_length,
    findStartLoop_above h hnn n x hx (n + 1) 0 ((n : Int) - 1) (by omega)
      (by omega) (by omega) (by push_cast; omega)]
  omega

theorem findEndIndex_below (h : Nat → Int) (hnn : ∀ i, 0 ≤ h i) (n : Nat)
    (scrollTop extent : Int) (hn : 0 < n) (hx : scrollTop + extent < 0) :
    findEndIndex (itemPositions h n) scrollTop extent = 0 := by
  unfold findEndIndex
  rw [itemPositions_length,
    findEndLoop_below h hnn n (scrollTop + extent) hx (n + 1) 0 ((n : Int) - 1)
      (by omega) (by omega)]
  omega

theorem findEndIndex_above (h : Nat → Int) (hnn : ∀ i, 0 ≤ h i) (n : Nat)
    (scrollTop extent : Int) (hn : 0 < n)
    (hx : heightSum h n < scrollTop + extent) :
    findEndIndex (itemPositions h n) scrollTop extent = (n : Int) - 1 := by
  unfold findEndIndex
  rw [itemPositions_length,
    findEndLoop_above h hnn n (scrollTop + extent) hx (n + 1) 0 ((n : Int) - 1)
      (by omega) (by omega) (by omega) (by push_cast; omega)]
  omega

/-! ## Window collection lemmas -/

theorem collectItems_mem (tbl : List PosEntry) :
    ∀ (cnt : Nat) (lo : Int) (v : VirtualItem), v ∈ collectItems tbl lo cnt →
      lo ≤ v.index ∧ v.index < lo + cnt ∧
      getPos tbl v.index = some ⟨v.start, v.stop, v.size⟩ := by
  intro cnt
  induction cnt with
  | zero => intro lo v hv; simp [collectItems] at hv
  | succ c ih =>
    intro lo v hv
    simp only [collectItems, List.mem_append] at hv
    rcases hv with hv | hv
    · rcases hg : getPos tbl lo with _ | pos
      · rw [hg] at hv
        simp at hv
      · rw [hg] at hv
        simp at hv
        subst hv
        refine ⟨le_refl _, ?_, hg⟩
        show lo < lo + ((c : Int) + 1)
        omega
    · obtain ⟨h1, h2, h3⟩ := ih (lo + 1) v hv
      exact ⟨by omega, by omega, h3⟩

theorem collectItems_map_index (tbl : List PosEntry) :
    ∀ (cnt : Nat) (lo : Int), 0 ≤ lo → lo + cnt ≤ (tbl.length : Int) →
      (collectItems tbl lo cnt).map (fun v => v.index) =
        (List.range cnt).map (fun j : Nat => lo + (j : Int)) := by
  intro cnt
  induction cnt with
  | zero => intro lo _ _; simp [collectItems]
  | succ c ih =>
    intro lo hlo hlen
    have hval : lo.toNat < tbl.length := by omega
    have hg : getPos tbl lo = some (tbl.get ⟨lo.toNat, hval⟩) := by
      unfold getPos
      rw [if_pos hlo]
      exact List.get?_eq_get hval
    simp only [collectItems, hg, List.map_append, List.map_cons, List.map_nil,
      List.singleton_append]
    rw [ih (lo + 1) (by omega) (by omega)]
    have htail : List.map (fun j : Nat => lo + 1 + (j : Int)) (List.range c) =
        List.map ((fun j : Nat => lo + (j : Int)) ∘ Nat.succ) (List.range c) :=
      List.map_congr_left (fun j _ => by
        show lo + 1 + (j : Int) = lo + ((j + 1 : Nat) : Int)
        push_cast
        ring)
    rw [List.range_succ_eq_map, List.map_cons, List.map_map,
      show lo + ((0 : Nat) : Int) = lo by simp, htail]

theorem virtualItems_window (tbl : List PosEntry)
    (scrollTop extent overscan : Int) (v : VirtualItem)
    (hv : v ∈ virtualItems tbl scrollTop extent overscan) :
    findStartIndex tbl scrollTop - overscan ≤ v.index ∧
    v.index ≤ findEndIndex tbl scrollTop extent + overscan ∧
    0 ≤ v.index ∧ v.index < (tbl.length : Int) := by
  simp only [virtualItems] at hv
  split at hv
  · simp at hv
  · obtain ⟨h1, h2, _⟩ := collectItems_mem tbl _ _ v hv
    omega

/-! ## Theorem on the visible-range searches -/

/-- Claim C2 (amended part): over the Position Index of non-negative
heights, (1) when the offset lies within the table extent, the start
search returns a valid index whose entry overlaps
`[offset, offset+extent]`; (2) likewise for the end search when
`offset+extent` lies within the extent; (3) the window never contains an
index outside `[startIndex - overscan, endIndex + overscan]` (nor outside
`[0, n)`); (4)–(6) for out-of-range offsets, `findStartIndex` clamps below
to 0 and `findEndIndex` clamps to `[0, lastIndex]`; but (7) — refuting the
original claim's two-sided clamp, see `findStartIndex_no_upper_clamp` —
`findStartIndex` returns `itemCount` (out of range) when the offset
exceeds the total extent. -/
theorem visibleRange_search_spec (h : Nat → Int) (hnn : ∀ i, 0 ≤ h i)
    (n : Nat) (scrollTop extent overscan : Int) :
    (0 < n → 0 ≤ scrollTop → scrollTop ≤ totalHeight h n → 0 ≤ extent →
      0 ≤ findStartIndex (itemPositions h n) scrollTop ∧
      findStartIndex (itemPositions h n) scrollTop < (n : Int) ∧
      heightSumI h (findStartIndex (itemPositions h n) scrollTop) ≤
        scrollTop + extent ∧
      scrollTop ≤
        heightSumI h (findStartIndex (itemPositions h n) scrollTop + 1)) ∧
    (0 < n → 0 ≤ scrollTop + extent → scrollTop + extent ≤ totalHeight h n →
      0 ≤ extent →
      0 ≤ findEndIndex (itemPositions h n) scrollTop extent ∧
      findEndIndex (itemPositions h n) scrollTop extent < (n : Int) ∧
      heightSumI h (findEndIndex (itemPositions h n) scrollTop extent) ≤
        scrollTop + extent ∧
      scrollTop ≤
        heightSumI h (findEndIndex (itemPositions h n) scrollTop extent + 1)) ∧
    (∀ v ∈ virtualItems (itemPositions h n) scrollTop extent overscan,
      findStartIndex (itemPositions h n) scrollTop - overscan ≤ v.index ∧
      v.index ≤ findEndIndex (itemPositions h n) scrollTop extent + overscan ∧
      0 ≤ v.index ∧ v.index < (n : Int)) ∧
    (scrollTop < 0 → findStartIndex (itemPositions h n) scrollTop = 0) ∧
    (0 < n → scrollTop + extent < 0 →
      findEndIndex (itemPositions h n) scrollTop extent = 0) ∧
    (0 < n → totalHeight h n < scrollTop + extent →
      findEndIndex (itemPositions h n) scrollTop extent = (n : Int) - 1) ∧
    (totalHeight h n < scrollTop →
      findStartIndex (itemPositions h n) scrollTop = (n : Int)) := by
  refine ⟨?_, ?_, ?_, ?_, ?_, ?_, ?_⟩
  · intro hn hx0 hxT hext
    rw [totalHeight_eq] at hxT
    obtain ⟨h1, h2, h3, h4⟩ := findStartIndex_mem h hnn n scrollTop hn hx0 hxT
    exact ⟨h1, h2, by omega, h4⟩
  · intro hn hx0 hxT hext
    rw [totalHeight_eq] at hxT
    obtain ⟨h1, h2, h3, h4⟩ :=
      findEndIndex_mem h hnn n scrollTop extent hn hx0 hxT
    exact ⟨h1, h2, h3, by omega⟩
  · intro v hv
    have := virtualItems_window (itemPositions h n) scrollTop extent overscan v hv
    rw [itemPositions_length] at this
    exact this
  · intro hx
    exact findStartIndex_below h hnn n scrollTop hx
  · intro hn hx
    exact findEndIndex_below h hnn n scrollTop extent hn hx
  · intro hn hx
    rw [totalHeight_eq] at hx
    exact findEndIndex_above h hnn n scrollTop extent hn hx
  · intro hx
    rw [totalHeight_eq] at hx
    exact findStartIndex_above h hnn n scrollTop hx

/-- Counterexample to C2 as stated: for a single item of height 50 and
offset 100 (beyond the table bounds), `findStartIndex` returns 1, which is
outside `[0, lastIndex] = [0, 0]` — the start search clamps only below. -/
theorem findStartIndex_no_upper_clamp :
    findStartIndex (itemPositions (fun _ => (50 : Int)) 1) 100 = 1 ∧
    ((itemPositions (fun _ => (50 : Int)) 1).length : Int) - 1 < 1 := by
  decide

/-- Witness for C2: the start search overlaps the viewport on a concrete
one-item table. -/
theorem visibleRange_search_spec_witness :
    0 ≤ findStartIndex (itemPositions (fun _ => (50 : Int)) 1) 0 ∧
    findStartIndex (itemPositions (fun _ => (50 : Int)) 1) 0 < (1 : Int) ∧
    heightSumI (fun _ => (50 : Int))
      (findStartIndex (itemPositions (fun _ => (50 : Int)) 1) 0) ≤ 0 + 50 ∧
    (0 : Int) ≤ heightSumI (fun _ => (50 : Int))
      (findStartIndex (itemPositions (fun _ => (50 : Int)) 1) 0 + 1) :=
  (visibleRange_search_spec (fun _ => 50) (fun _ => by show (0 : Int) ≤ 50; decide) 1 0 50 0).1
    (by omega) (by omega) (by decide) (by omega)

/-! ## Theorem on the full-viewport round trip -/

theorem heightSum_strict (h : Nat → Int) (hpos : ∀ i, 0 < h i) {a b : Nat}
    (hab : a < b) : heightSum h a < heightSum h b := by
  have h1 : heightSum h (a + 1) ≤ heightSum h b :=
    heightSum_mono h (fun i => le_of_lt (hpos i)) hab
  have h2 := heightSum_succ h a
  have h3 := hpos a
  omega

/-- Claim C7 (amended part): for strictly positive heights and a non-empty
item sequence, windowing with `overscan = 0`, offset 0 and a viewport
extent equal to the total extent returns exactly the full index range
`[0, itemCount - 1]`.  (The original claim over all non-empty sequences —
zero heights included — is refuted by
`full_viewport_misses_zero_height_head`.) -/
theorem full_viewport_full_range (h : Nat → Int) (hpos : ∀ i, 0 < h i)
    (n : Nat) (hn : 0 < n) :
    (virtualItems (itemPositions h n) 0 (totalHeight h n) 0).map
      (fun v => v.index) = (List.range n).map (fun j : Nat => (j : Int)) := by
  have hnn : ∀ i, 0 ≤ h i := fun i => le_of_lt (hpos i)
  have hz : heightSum h 0 = 0 := by simp [heightSum]
  have hT : 0 < heightSum h n := by
    have := heightSum_strict h hpos hn
    omega
  have hTt : totalHeight h n = heightSum h n := totalHeight_eq h n
  have h1s : heightSum h 1 = h 0 := by
    rw [show (1 : Nat) = 0 + 1 from rfl, heightSum_succ, hz, zero_add]
  have hfs : findStartIndex (itemPositions h n) 0 = 0 := by
    obtain ⟨ha, hb, hc, hd⟩ :=
      findStartIndex_mem h hnn n 0 hn (le_refl 0) (by omega)
    by_contra hne
    have hge : (1 : Int) ≤ findStartIndex (itemPositions h n) 0 := by omega
    have hmono : heightSumI h 1 ≤
        heightSumI h (findStartIndex (itemPositions h n) 0) :=
      heightSumI_mono h hnn hge
    have he1 : heightSumI h 1 = heightSum h 1 := by simp [heightSumI]
    have := hpos 0
    omega
  have hfe : findEndIndex (itemPositions h n) 0 (totalHeight h n) =
      (n : Int) - 1 := by
    obtain ⟨ha, hb, hc, hd⟩ :=
      findEndIndex_mem h hnn n 0 (totalHeight h n) hn (by omega) (by omega)
    by_contra hne
    have hmono := heightSumI_mono h hnn
      (show findEndIndex (itemPositions h n) 0 (totalHeight h n) + 1 ≤
        (n : Int) - 1 by omega)
    have hcast : heightSumI h ((n : Int) - 1) = heightSum h (n - 1) := by
      unfold heightSumI
      congr 1
      omega
    have hstrict : heightSum h (n - 1) < heightSum h n :=
      heightSum_strict h hpos (by omega)
    omega
  simp only [virtualItems]
  split
  · next hcond =>
    exfalso
    simp only [itemPositions_length] at hcond
    simp at hcond
    omega
  · next hcond =>
    rw [hfs, hfe, itemPositions_length]
    rw [show max (0 : Int) (0 - 0) = 0 by omega]
    rw [show min ((n : Int) - 1) ((n : Int) - 1 + 0) = (n : Int) - 1 by omega]
    rw [show (((n : Int) - 1) + 1 - 0).toNat = n by omega]
    rw [collectItems_map_index (itemPositions h n) n 0 (le_refl 0)
      (by rw [itemPositions_length]; omega)]
    refine List.map_congr_left ?_
    intro j _
    show (0 : Int) + (j : Int) = (j : Int)
    ring

/-- The height function `[0, 0, 50]`, for the C7 counterexample. -/
def hC7 : Nat → Int := fun i => if i < 2 then 0 else 50

/-- Counterexample to C7 as stated: with heights `[0, 0, 50]` (non-empty,
non-zero total extent 50), windowing with overscan 0, offset 0 and viewport
50 returns indices `[1, 2]`, not the full range `[0, 1, 2]`: the start
search lands on the zero-extent entry 1 that also contains offset 0. -/
theorem full_viewport_misses_zero_height_head :
    (0 : Nat) < 3 ∧ totalHeight hC7 3 ≠ 0 ∧
    (virtualItems (itemPositions hC7 3) 0 (totalHeight hC7 3) 0).map
      (fun v => v.index) = [1, 2] ∧
    (virtualItems (itemPositions hC7 3) 0 (totalHeight hC7 3) 0).map
      (fun v => v.index) ≠ (List.range 3).map (fun j : Nat => (j : Int)) := by
  decide

/-- Witness for C7: one item of height 50. -/
theorem full_viewport_full_range_witness :
    (virtualItems (itemPositions (fun _ => (50 : Int)) 1) 0
      (totalHeight (fun _ => (50 : Int)) 1) 0).map (fun v => v.index) =
      (List.range 1).map (fun j : Nat => (j : Int)) :=
  full_viewport_full_range (fun _ => 50)
    (fun _ => by show (0 : Int) < 50; decide) 1 (by omega)
